import Mathlib

/-!
Shallow embedding of the task-group cancellation core of
src/src/tbb/task_group_context.cpp.

Contexts are identified by natural numbers; the process-wide state
(`MarketState`) carries a total map from context ids to context records,
a per-worker context-list state, and the global propagation epoch.
Pointers of the C++ source become `Option` of identifiers; the atomic
`uint32_t` flags become `Nat`; the opaque `cpu_ctl_env` value becomes a
`Nat` (captured environments are compared by value only, which is all the
source does).  The state-propagation loops of the source, which terminate
because the context tree is finite and acyclic, take explicit fuel.
The propagation engine of the source is templated over which atomic member
is propagated; today only `my_cancellation_requested` instantiates it, and
the embedding is specialised to that member.
-/

abbrev CtxId := Nat
abbrev WorkerId := Nat

/-- Lifetime states of `d1::task_group_context::lifetime_state`. -/
inductive LifetimeState where
  | created
  | locked
  | isolated
  | bound
  | dead
  deriving DecidableEq

/-- The `my_traits` member: `{fp_settings : bool, bound : bool}`. -/
structure ContextTraits where
  fp_settings : Bool
  bound : Bool
  deriving DecidableEq

/-- A pointer into the intrusive context list: either a worker's sentinel
head node or the embedded node of a context. -/
inductive NodeRef where
  | head (w : WorkerId)
  | node (c : CtxId)
  deriving DecidableEq

/-- One `d1::task_group_context`.  `my_cpu_ctl_env` is the opaque captured
FP environment, modelled by value. -/
structure Context where
  my_parent : Option CtxId
  my_owner : Option WorkerId
  my_lifetime_state : LifetimeState
  my_cancellation_requested : Nat
  may_have_children : Nat
  node_prev : Option NodeRef
  node_next : Option NodeRef
  my_cpu_ctl_env : Nat
  my_traits : ContextTraits
  my_exception : Option Nat
  deriving DecidableEq

/-- One `thread_data::context_list_state`: the two pointers of the sentinel
head node and the worker-local propagation epoch. -/
structure ContextListState where
  head_next : NodeRef
  head_prev : NodeRef
  epoch : Nat
  deriving DecidableEq

/-- The process-wide state: all contexts, all workers' list states and the
global propagation epoch `the_context_state_propagation_epoch`. -/
structure MarketState where
  ctxs : CtxId → Context
  workers : WorkerId → ContextListState
  the_context_state_propagation_epoch : Nat

/-- Update one context. -/
def updCtx (i : CtxId) (f : Context → Context) (s : MarketState) : MarketState :=
  { s with ctxs := fun j => if j = i then f (s.ctxs j) else s.ctxs j }

/-- Update one worker's context-list state. -/
def updWorker (w : WorkerId) (f : ContextListState → ContextListState) (s : MarketState) :
    MarketState :=
  { s with workers := fun u => if u = w then f (s.workers u) else s.workers u }

/-- Relaxed store to `my_cancellation_requested`. -/
def updFlag (i : CtxId) (v : Nat) (s : MarketState) : MarketState :=
  updCtx i (fun c => { c with my_cancellation_requested := v }) s

/-- Store through a list-node pointer to the `prev` field of its target
(either a sentinel head or a context's embedded node). -/
def setPrevOf (n : NodeRef) (v : NodeRef) (s : MarketState) : MarketState :=
  match n with
  | .head w => updWorker w (fun cls => { cls with head_prev := v }) s
  | .node c => updCtx c (fun ctx => { ctx with node_prev := some v }) s

/-- `task_group_context_impl::initialize` (source lines 86-105), acting on a
single context.  `currentFpEnv` models the FP environment captured by
`ctl->get_env()` when `my_traits.fp_settings` is set.  The source stores
`ctx.my_node.next` twice (lines 96-97) and never stores `ctx.my_node.prev`;
the embedding reproduces this faithfully: `node_next` is set to `none`,
`node_prev` is left unchanged. -/
def ctxInit (currentFpEnv : Nat) (c : Context) : Context :=
  { c with
    my_cancellation_requested := 0
    may_have_children := 0
    my_lifetime_state := .created
    my_parent := none
    my_owner := none
    node_next := none
    my_exception := none
    my_cpu_ctl_env := if c.my_traits.fp_settings then currentFpEnv else 0 }

/-- `task_group_context_impl::reset` (source lines 288-298), acting on a
single context: release the exception and clear the cancellation flag. -/
def ctxReset (c : Context) : Context :=
  { c with my_exception := none, my_cancellation_requested := 0 }

/-- `reset` lifted to the process state. -/
def resetM (i : CtxId) (s : MarketState) : MarketState :=
  updCtx i ctxReset s

/-- `task_group_context_impl::capture_fp_settings` (source lines 301-312):
if the context has no FP settings yet, default-construct the env and mark
`fp_settings`; then capture the current environment into it. -/
def capture_fp_settings (i : CtxId) (currentFpEnv : Nat) (s : MarketState) : MarketState :=
  updCtx i (fun c =>
    { c with
      my_cpu_ctl_env := currentFpEnv
      my_traits := { c.my_traits with fp_settings := true } }) s

/-- `task_group_context_impl::copy_fp_settings` (source lines 314-322):
copy the source context's captured environment and mark `fp_settings`. -/
def copy_fp_settings (i srcCtx : CtxId) (s : MarketState) : MarketState :=
  updCtx i (fun c =>
    { c with
      my_cpu_ctl_env := (s.ctxs srcCtx).my_cpu_ctl_env
      my_traits := { c.my_traits with fp_settings := true } }) s

/-- `task_group_context_impl::is_group_execution_cancelled`
(source lines 283-285). -/
def is_group_execution_cancelled (i : CtxId) (s : MarketState) : Bool :=
  (s.ctxs i).my_cancellation_requested != 0

/-- `task_group_context_impl::register_with` (source lines 107-121): set
the owner, point `prev` at the owner's sentinel head, and, under the list
mutex, splice the node in at the head of the owner's list. -/
def register_with (i : CtxId) (td : WorkerId) (s : MarketState) : MarketState :=
  let s1 := updCtx i (fun c =>
    { c with my_owner := some td, node_prev := some (.head td) }) s
  let hn := (s1.workers td).head_next
  let s2 := setPrevOf hn (.node i) s1
  let s3 := updCtx i (fun c => { c with node_next := some hn }) s2
  updWorker td (fun cls => { cls with head_next := .node i }) s3

/-- The ancestor search of `task_group_context_impl::propagate_task_group_state`
(source lines 214-215): walk the parent chain starting from `my_parent`,
looking for the cancelled source context. -/
def ancestorSearchLoop (s : MarketState) (src : CtxId) : Nat → Option CtxId → Bool
  | _, none => false
  | 0, some _ => false
  | cf + 1, some a =>
      if a = src then true else ancestorSearchLoop s src cf (s.ctxs a).my_parent

/-- The marking loop of `task_group_context_impl::propagate_task_group_state`
(source lines 216-217): relaxed-store the new state on every context from
`c` up to, and excluding, `src`. -/
def markChain (src : CtxId) (ns : Nat) : Nat → CtxId → MarketState → MarketState
  | 0, _, s => s
  | cf + 1, c, s =>
      if c = src then s
      else
        let s1 := updFlag c ns s
        match (s1.ctxs c).my_parent with
        | none => s1
        | some p => markChain src ns cf p s1

/-- The list of contexts written by `markChain`: the parent chain from `c`
up to, and excluding, `src`. -/
def chainCtxs (s : MarketState) (src : CtxId) : Nat → CtxId → List CtxId
  | 0, _ => []
  | cf + 1, c =>
      if c = src then []
      else
        c :: (match (s.ctxs c).my_parent with
              | none => []
              | some p => chainCtxs s src cf p)

/-- Reachability of `src` from `c` (inclusive) along parent links within
the given fuel. -/
def reachesSrc (s : MarketState) (src : CtxId) : Nat → CtxId → Bool
  | 0, _ => false
  | cf + 1, c =>
      if c = src then true
      else
        match (s.ctxs c).my_parent with
        | none => false
        | some p => reachesSrc s src cf p

/-- `task_group_context_impl::propagate_task_group_state` (source lines
210-222), specialised to `my_cancellation_requested`: if the context does
not yet carry the new state and is not the source itself, search its
ancestors for `src`; on success, mark the whole chain below `src`. -/
def ctx_propagate_task_group_state (cf : Nat) (i src : CtxId) (ns : Nat) (s : MarketState) :
    MarketState :=
  if (s.ctxs i).my_cancellation_requested ≠ ns ∧ i ≠ src then
    if ancestorSearchLoop s src cf (s.ctxs i).my_parent then markChain src ns (cf + 1) i s
    else s
  else s

/-- The per-context walk order of `thread_data::propagate_task_group_state`:
follow `next` pointers from a node until the sentinel head (or a null
pointer, or fuel exhaustion) is reached. -/
def walkOrder (s : MarketState) (w : WorkerId) : Nat → NodeRef → List CtxId
  | 0, _ => []
  | _ + 1, .head _ => []
  | wf + 1, .node c => c :: walkOrder s w wf ((s.ctxs c).node_next.getD (.head w))

/-- The list walk of `thread_data::propagate_task_group_state` (source
lines 230-236): for each listed context that does not yet carry the new
state, run the per-context propagation. -/
def walkCtxList (cf : Nat) (w : WorkerId) (src : CtxId) (ns : Nat) :
    Nat → NodeRef → MarketState → MarketState
  | 0, _, s => s
  | _ + 1, .head _, s => s
  | wf + 1, .node c, s =>
      let s1 := if (s.ctxs c).my_cancellation_requested ≠ ns
                then ctx_propagate_task_group_state cf c src ns s else s
      walkCtxList cf w src ns wf ((s1.ctxs c).node_next.getD (.head w)) s1

/-- `thread_data::propagate_task_group_state` (source lines 224-240): under
the worker's list mutex, walk the worker's context list, then sync the
worker-local epoch with the global one. -/
def td_propagate_task_group_state (cf wf : Nat) (w : WorkerId) (src : CtxId) (ns : Nat)
    (s : MarketState) : MarketState :=
  let s1 := walkCtxList cf w src ns wf (s.workers w).head_next s
  updWorker w (fun cls =>
    { cls with epoch := s1.the_context_state_propagation_epoch }) s1

/-- `market::propagate_task_group_state` (source lines 242-268), specialised
to `my_cancellation_requested`.  `W` is the list of live workers and
external threads (`my_workers` with null slots skipped, then `my_masters`).
Returns the state and the boolean result of the source function. -/
def market_propagate_task_group_state (W : List WorkerId) (cf wf : Nat) (src : CtxId)
    (ns : Nat) (s : MarketState) : MarketState × Bool :=
  if (s.ctxs src).may_have_children ≠ 1 then (s, true)
  else if (s.ctxs src).my_cancellation_requested ≠ ns then (s, false)
  else
    let s1 := { s with
      the_context_state_propagation_epoch := s.the_context_state_propagation_epoch + 1 }
    (W.foldl (fun st w => td_propagate_task_group_state cf wf w src ns st) s1, true)

/-- `task_group_context_impl::cancel_group_execution` (source lines
270-281): return `false` if the flag is already set (the exchange is
short-circuited); otherwise exchange the flag to 1 and run the market
propagation, whose boolean result is discarded. -/
def cancel_group_execution (W : List WorkerId) (cf wf : Nat) (i : CtxId) (s : MarketState) :
    MarketState × Bool :=
  if (s.ctxs i).my_cancellation_requested ≠ 0 then (s, false)
  else
    ((market_propagate_task_group_state W cf wf i 1 (updFlag i 1 s)).1, true)

/-- The prefix of `task_group_context_impl::bind_to_impl` (source lines
128-138): record the parent, inherit FP settings if the context has not
captured them, and set the parent's `may_have_children`. -/
def bindPreState (i parentCtx : CtxId) (s : MarketState) : MarketState :=
  let s1 := updCtx i (fun c => { c with my_parent := some parentCtx }) s
  let s2 := if (s1.ctxs i).my_traits.fp_settings = false
            then copy_fp_settings i parentCtx s1 else s1
  if (s2.ctxs parentCtx).may_have_children ≠ 1
  then updCtx parentCtx (fun c => { c with may_have_children := 1 }) s2 else s2

/-- The speculative branch of `task_group_context_impl::bind_to_impl`
(source lines 151-155) up to and including the list insertion: copy the
parent's `my_cancellation_requested` speculatively, then link the child
into the owner's list. -/
def bindSpecState (i : CtxId) (td : WorkerId) (parentCtx : CtxId) (s : MarketState) :
    MarketState :=
  register_with i td
    (updFlag i ((bindPreState i parentCtx s).ctxs parentCtx).my_cancellation_requested
      (bindPreState i parentCtx s))

/-- The local epoch snapshot of `task_group_context_impl::bind_to_impl`
(source line 151): the parent's owner's list epoch, read before the
speculative flag copy. -/
def bindSnapshot (i parentCtx : CtxId) (s : MarketState) : Nat :=
  ((bindPreState i parentCtx s).workers
    (((bindPreState i parentCtx s).ctxs parentCtx).my_owner.getD 0)).epoch

/-- `task_group_context_impl::bind_to_impl` (source lines 123-175).
`parentCtx` is the current dispatcher's context.  `interf` models a
concurrent propagation (or nothing, `id`) completing in the window between
the list insertion of `register_with` and the epoch comparison; the source
reads the global epoch after the full fence precisely because this window
exists.  In the grandparent branch the parent's flag is first copied
speculatively, and copied again under the global propagation mutex when
the local epoch snapshot disagrees with the global epoch. -/
def bind_to_impl (interf : MarketState → MarketState) (i : CtxId) (td : WorkerId)
    (parentCtx : CtxId) (s : MarketState) : MarketState :=
  updCtx i (fun c => { c with my_lifetime_state := .bound }) <|
    if ((bindPreState i parentCtx s).ctxs parentCtx).my_parent ≠ none then
      if bindSnapshot i parentCtx s ≠
          (interf (bindSpecState i td parentCtx s)).the_context_state_propagation_epoch then
        updFlag i
          ((interf (bindSpecState i td parentCtx s)).ctxs
            parentCtx).my_cancellation_requested
          (interf (bindSpecState i td parentCtx s))
      else interf (bindSpecState i td parentCtx s)
    else
      updFlag i
        ((register_with i td (bindPreState i parentCtx s)).ctxs
          parentCtx).my_cancellation_requested
        (register_with i td (bindPreState i parentCtx s))

/-- States `s` and `t` agree on every context field except
`my_cancellation_requested`, and on every worker field except `epoch`, and
hence on the whole list and tree structure.  Every state-propagation
operation of the source produces a state in this relation to its input. -/
def FlagEpochOnly (s t : MarketState) : Prop :=
  (∀ j, t.ctxs j = { s.ctxs j with
      my_cancellation_requested := (t.ctxs j).my_cancellation_requested }) ∧
  (∀ w, t.workers w = { s.workers w with epoch := (t.workers w).epoch })

/-- Every cancellation flag of `t` is either the propagated value `ns` or
its old value in `s`: the propagation never writes anything else. -/
def WritesOnly (ns : Nat) (s t : MarketState) : Prop :=
  ∀ j, (t.ctxs j).my_cancellation_requested = ns ∨
    (t.ctxs j).my_cancellation_requested = (s.ctxs j).my_cancellation_requested

/-- `task_group_context_impl::bind_to` (source lines 177-208).
`dispatchCtx` is `td->my_task_dispatcher->m_execute_data_ext.context` and
`defaultCtx` is `td->my_arena->my_default_ctx`.  In the sequential model
only the CAS-winning path (state `created`) makes progress; observers of
any other state return without modifying the context (the source
spin-waits while the state is `locked`, which cannot be observed
sequentially outside a binding in progress). -/
def bind_to (interf : MarketState → MarketState) (i : CtxId) (td : WorkerId)
    (dispatchCtx defaultCtx : CtxId) (s : MarketState) : MarketState :=
  if (s.ctxs i).my_lifetime_state = .created then
    let s1 := updCtx i (fun c => { c with my_lifetime_state := .locked }) s
    if dispatchCtx = defaultCtx ∨ (s1.ctxs i).my_traits.bound = false then
      let s2 := if (s1.ctxs i).my_traits.fp_settings = false
                then copy_fp_settings i defaultCtx s1 else s1
      updCtx i (fun c => { c with my_lifetime_state := .isolated }) s2
    else bind_to_impl interf i td dispatchCtx s1
  else s

/-- Frame relation for the binding and FP operations: `my_traits.bound` is
preserved, `my_traits.fp_settings` only ever moves to `true`, and
`may_have_children` only ever moves to `1`. -/
def BindFrame (s t : MarketState) : Prop :=
  ∀ j, ((t.ctxs j).my_traits.bound = (s.ctxs j).my_traits.bound) ∧
    ((t.ctxs j).my_traits.fp_settings = (s.ctxs j).my_traits.fp_settings ∨
      (t.ctxs j).my_traits.fp_settings = true) ∧
    ((t.ctxs j).may_have_children = (s.ctxs j).may_have_children ∨
      (t.ctxs j).may_have_children = 1)

/-- Frame relation for the isolated binding path: the worker lists, every
parent link, every list-node pointer and every cancellation flag are
untouched. -/
def IsoFrame (s t : MarketState) : Prop :=
  t.workers = s.workers ∧
  ∀ j, (t.ctxs j).my_parent = (s.ctxs j).my_parent ∧
    (t.ctxs j).node_next = (s.ctxs j).node_next ∧
    (t.ctxs j).node_prev = (s.ctxs j).node_prev ∧
    (t.ctxs j).my_cancellation_requested = (s.ctxs j).my_cancellation_requested

/-- A freshly zero-initialised context, used by the concrete witnesses. -/
def blankCtx : Context :=
  { my_parent := none
    my_owner := none
    my_lifetime_state := .created
    my_cancellation_requested := 0
    may_have_children := 0
    node_prev := none
    node_next := none
    my_cpu_ctl_env := 0
    my_traits := { fp_settings := false, bound := true }
    my_exception := none }

/-- Worker states whose lists are empty (each sentinel points at itself). -/
def blankWorkers : WorkerId → ContextListState :=
  fun w => { head_next := .head w, head_prev := .head w, epoch := 0 }

/-- All-blank process state. -/
def blankState : MarketState :=
  { ctxs := fun _ => blankCtx
    workers := blankWorkers
    the_context_state_propagation_epoch := 0 }

/-- Witness state for C3: context 0 is a cancelled root, context 1 is its
child and the only element of worker 0's list, every other context is
blank and unrelated. -/
def listState3 : MarketState :=
  { ctxs := fun j =>
      if j = 0 then
        { blankCtx with
          my_cancellation_requested := 1
          may_have_children := 1
          my_lifetime_state := .isolated }
      else if j = 1 then
        { blankCtx with
          my_parent := some 0
          my_owner := some 0
          my_lifetime_state := .bound
          node_prev := some (.head 0)
          node_next := some (.head 0) }
      else blankCtx
    workers := fun w =>
      if w = 0 then { head_next := .node 1, head_prev := .node 1, epoch := 0 }
      else blankWorkers w
    the_context_state_propagation_epoch := 0 }

/-- Witness state for C7: context 0 is a root, context 1 its child (the
future parent, owned by worker 0), context 2 the context being bound. -/
def grandState : MarketState :=
  { ctxs := fun j =>
      if j = 0 then
        { blankCtx with may_have_children := 1, my_lifetime_state := .isolated }
      else if j = 1 then
        { blankCtx with
          my_parent := some 0
          my_owner := some 0
          my_lifetime_state := .bound }
      else blankCtx
    workers := blankWorkers
    the_context_state_propagation_epoch := 0 }

/-- Counterexample state for C9: context 1 was cancelled before its first
binding; context 0 is the prospective root parent. -/
def earlyCancelState : MarketState :=
  { ctxs := fun j =>
      if j = 0 then { blankCtx with my_lifetime_state := .isolated }
      else if j = 1 then
        { blankCtx with
          my_cancellation_requested := 1
          my_traits := { fp_settings := true, bound := true } }
      else blankCtx
    workers := blankWorkers
    the_context_state_propagation_epoch := 0 }

/-- Context with scribbled fields, exercising `ctxInit` (C4). -/
def dirtyCtx : Context :=
  { my_parent := some 2
    my_owner := some 4
    my_lifetime_state := .bound
    my_cancellation_requested := 1
    may_have_children := 1
    node_prev := some (.node 5)
    node_next := some (.node 7)
    my_cpu_ctl_env := 9
    my_traits := { fp_settings := false, bound := true }
    my_exception := some 3 }

/-- State for the C8 witness: context 0 is cancelled and holds an exception. -/
def cancelledState : MarketState :=
  { ctxs := fun j =>
      if j = 0 then
        { blankCtx with my_cancellation_requested := 1, my_exception := some 5 }
      else blankCtx
    workers := blankWorkers
    the_context_state_propagation_epoch := 0 }

/-! ### Frame infrastructure: propagation touches only flags and epochs -/

theorem updCtx_ctxs (i : CtxId) (f : Context → Context) (s : MarketState) (j : CtxId) :
    (updCtx i f s).ctxs j = if j = i then f (s.ctxs j) else s.ctxs j := rfl

theorem updCtx_workers (i : CtxId) (f : Context → Context) (s : MarketState) :
    (updCtx i f s).workers = s.workers := rfl

theorem updCtx_epoch (i : CtxId) (f : Context → Context) (s : MarketState) :
    (updCtx i f s).the_context_state_propagation_epoch =
      s.the_context_state_propagation_epoch := rfl

theorem updFlag_ctxs (i : CtxId) (v : Nat) (s : MarketState) (j : CtxId) :
    (updFlag i v s).ctxs j =
      if j = i then { s.ctxs j with my_cancellation_requested := v } else s.ctxs j := rfl

theorem feo_refl (s : MarketState) : FlagEpochOnly s s :=
  ⟨fun _ => rfl, fun _ => rfl⟩

theorem feo_trans {s t u : MarketState} (h1 : FlagEpochOnly s t) (h2 : FlagEpochOnly t u) :
    FlagEpochOnly s u := by
  refine ⟨fun j => ?_, fun w => ?_⟩
  · rw [h2.1 j, h1.1 j]
  · rw [h2.2 w, h1.2 w]

theorem feo_updFlag (i : CtxId) (v : Nat) (s : MarketState) :
    FlagEpochOnly s (updFlag i v s) := by
  refine ⟨fun j => ?_, fun _ => rfl⟩
  rw [updFlag_ctxs]
  by_cases h : j = i <;> simp [h]

theorem feo_markChain (src : CtxId) (ns : Nat) :
    ∀ cf c s, FlagEpochOnly s (markChain src ns cf c s) := by
  intro cf
  induction cf with
  | zero => intro c s; exact feo_refl s
  | succ cf ih =>
      intro c s
      rw [markChain]
      by_cases h : c = src
      · simp only [h, if_pos rfl]; exact feo_refl s
      · simp only [if_neg h]
        cases hp : ((updFlag c ns s).ctxs c).my_parent with
        | none => simp only [hp]; exact feo_updFlag c ns s
        | some p => simp only [hp]; exact feo_trans (feo_updFlag c ns s) (ih p _)

theorem feo_ctx_propagate (cf : Nat) (i src : CtxId) (ns : Nat) (s : MarketState) :
    FlagEpochOnly s (ctx_propagate_task_group_state cf i src ns s) := by
  rw [ctx_propagate_task_group_state]
  split
  · split
    · exact feo_markChain src ns (cf + 1) i s
    · exact feo_refl s
  · exact feo_refl s

theorem feo_walk (cf : Nat) (w : WorkerId) (src : CtxId) (ns : Nat) :
    ∀ wf n s, FlagEpochOnly s (walkCtxList cf w src ns wf n s) := by
  intro wf
  induction wf with
  | zero => intro n s; exact feo_refl s
  | succ wf ih =>
      intro n s
      cases n with
      | head _ => exact feo_refl s
      | node c =>
          rw [walkCtxList]
          refine feo_trans ?_ (ih _ _)
          split
          · exact feo_ctx_propagate cf c src ns s
          · exact feo_refl s

theorem feo_updEpoch (w : WorkerId) (e : Nat) (s : MarketState) :
    FlagEpochOnly s (updWorker w (fun cls => { cls with epoch := e }) s) := by
  refine ⟨fun _ => rfl, fun u => ?_⟩
  by_cases h : u = w <;> simp [updWorker, h]

theorem feo_td_propagate (cf wf : Nat) (w : WorkerId) (src : CtxId) (ns : Nat)
    (s : MarketState) : FlagEpochOnly s (td_propagate_task_group_state cf wf w src ns s) :=
  feo_trans (feo_walk cf w src ns wf _ s) (feo_updEpoch w _ _)

theorem feo_foldl_td (cf wf : Nat) (src : CtxId) (ns : Nat) :
    ∀ (W : List WorkerId) (s : MarketState),
      FlagEpochOnly s
        (W.foldl (fun st u => td_propagate_task_group_state cf wf u src ns st) s) := by
  intro W
  induction W with
  | nil => intro s; exact feo_refl s
  | cons w W ih =>
      intro s
      exact feo_trans (feo_td_propagate cf wf w src ns s) (ih _)

theorem feo_incrEpoch (s : MarketState) :
    FlagEpochOnly s { s with
      the_context_state_propagation_epoch := s.the_context_state_propagation_epoch + 1 } :=
  ⟨fun _ => rfl, fun _ => rfl⟩

theorem feo_market (W : List WorkerId) (cf wf : Nat) (src : CtxId) (ns : Nat)
    (s : MarketState) :
    FlagEpochOnly s (market_propagate_task_group_state W cf wf src ns s).1 := by
  rw [market_propagate_task_group_state]
  split
  · exact feo_refl s
  · split
    · exact feo_refl s
    · exact feo_trans (feo_incrEpoch s) (feo_foldl_td cf wf src ns W _)

theorem feo_parent {s t : MarketState} (h : FlagEpochOnly s t) (j : CtxId) :
    (t.ctxs j).my_parent = (s.ctxs j).my_parent := by rw [h.1 j]

theorem feo_node_next {s t : MarketState} (h : FlagEpochOnly s t) (j : CtxId) :
    (t.ctxs j).node_next = (s.ctxs j).node_next := by rw [h.1 j]

theorem feo_node_prev {s t : MarketState} (h : FlagEpochOnly s t) (j : CtxId) :
    (t.ctxs j).node_prev = (s.ctxs j).node_prev := by rw [h.1 j]

theorem feo_mhc {s t : MarketState} (h : FlagEpochOnly s t) (j : CtxId) :
    (t.ctxs j).may_have_children = (s.ctxs j).may_have_children := by rw [h.1 j]

theorem feo_traits {s t : MarketState} (h : FlagEpochOnly s t) (j : CtxId) :
    (t.ctxs j).my_traits = (s.ctxs j).my_traits := by rw [h.1 j]

theorem feo_owner {s t : MarketState} (h : FlagEpochOnly s t) (j : CtxId) :
    (t.ctxs j).my_owner = (s.ctxs j).my_owner := by rw [h.1 j]

theorem feo_lifetime {s t : MarketState} (h : FlagEpochOnly s t) (j : CtxId) :
    (t.ctxs j).my_lifetime_state = (s.ctxs j).my_lifetime_state := by rw [h.1 j]

theorem feo_exception {s t : MarketState} (h : FlagEpochOnly s t) (j : CtxId) :
    (t.ctxs j).my_exception = (s.ctxs j).my_exception := by rw [h.1 j]

theorem feo_env {s t : MarketState} (h : FlagEpochOnly s t) (j : CtxId) :
    (t.ctxs j).my_cpu_ctl_env = (s.ctxs j).my_cpu_ctl_env := by rw [h.1 j]

theorem feo_head_next {s t : MarketState} (h : FlagEpochOnly s t) (w : WorkerId) :
    (t.workers w).head_next = (s.workers w).head_next := by rw [h.2 w]

/-! ### Stability of the tree and list structure under propagation -/

theorem ancLoop_congr {s t : MarketState} (src : CtxId)
    (h : ∀ j, (t.ctxs j).my_parent = (s.ctxs j).my_parent) :
    ∀ cf o, ancestorSearchLoop t src cf o = ancestorSearchLoop s src cf o := by
  intro cf
  induction cf with
  | zero => intro o; cases o <;> rfl
  | succ cf ih =>
      intro o
      cases o with
      | none => rfl
      | some a =>
          rw [ancestorSearchLoop, ancestorSearchLoop, h a]
          by_cases ha : a = src <;> simp [ha, ih]

theorem chainCtxs_congr {s t : MarketState} (src : CtxId)
    (h : ∀ j, (t.ctxs j).my_parent = (s.ctxs j).my_parent) :
    ∀ cf c, chainCtxs t src cf c = chainCtxs s src cf c := by
  intro cf
  induction cf with
  | zero => intro c; rfl
  | succ cf ih =>
      intro c
      rw [chainCtxs, chainCtxs, h c]
      by_cases hc : c = src
      · simp [hc]
      · simp only [if_neg hc]
        cases (s.ctxs c).my_parent with
        | none => rfl
        | some p => simp [ih p]

theorem reachesSrc_congr {s t : MarketState} (src : CtxId)
    (h : ∀ j, (t.ctxs j).my_parent = (s.ctxs j).my_parent) :
    ∀ cf c, reachesSrc t src cf c = reachesSrc s src cf c := by
  intro cf
  induction cf with
  | zero => intro c; rfl
  | succ cf ih =>
      intro c
      rw [reachesSrc, reachesSrc, h c]
      by_cases hc : c = src
      · simp [hc]
      · simp only [if_neg hc]
        cases (s.ctxs c).my_parent with
        | none => rfl
        | some p => simp [ih p]

theorem walkOrder_congr {s t : MarketState} (w : WorkerId)
    (h : ∀ j, (t.ctxs j).node_next = (s.ctxs j).node_next) :
    ∀ wf n, walkOrder t w wf n = walkOrder s w wf n := by
  intro wf
  induction wf with
  | zero => intro n; rfl
  | succ wf ih =>
      intro n
      cases n with
      | head _ => rfl
      | node c => rw [walkOrder, walkOrder, h c, ih]

/-! ### Propagation writes only the new state -/

theorem wo_refl (ns : Nat) (s : MarketState) : WritesOnly ns s s :=
  fun _ => Or.inr rfl

theorem wo_trans {ns : Nat} {s t u : MarketState} (h1 : WritesOnly ns s t)
    (h2 : WritesOnly ns t u) : WritesOnly ns s u := by
  intro j
  rcases h2 j with h | h
  · exact Or.inl h
  · rcases h1 j with h' | h'
    · exact Or.inl (h.trans h')
    · exact Or.inr (h.trans h')

theorem wo_updFlag (ns : Nat) (i : CtxId) (s : MarketState) :
    WritesOnly ns s (updFlag i ns s) := by
  intro j
  rw [updFlag_ctxs]
  by_cases h : j = i <;> simp [h]

theorem wo_markChain (src : CtxId) (ns : Nat) :
    ∀ cf c s, WritesOnly ns s (markChain src ns cf c s) := by
  intro cf
  induction cf with
  | zero => intro c s; exact wo_refl ns s
  | succ cf ih =>
      intro c s
      rw [markChain]
      by_cases h : c = src
      · simp only [if_pos h]; exact wo_refl ns s
      · simp only [if_neg h]
        cases hp : ((updFlag c ns s).ctxs c).my_parent with
        | none => simp only [hp]; exact wo_updFlag ns c s
        | some p => simp only [hp]; exact wo_trans (wo_updFlag ns c s) (ih p _)

theorem wo_ctx_propagate (cf : Nat) (i src : CtxId) (ns : Nat) (s : MarketState) :
    WritesOnly ns s (ctx_propagate_task_group_state cf i src ns s) := by
  rw [ctx_propagate_task_group_state]
  split
  · split
    · exact wo_markChain src ns (cf + 1) i s
    · exact wo_refl ns s
  · exact wo_refl ns s

theorem wo_walk (cf : Nat) (w : WorkerId) (src : CtxId) (ns : Nat) :
    ∀ wf n s, WritesOnly ns s (walkCtxList cf w src ns wf n s) := by
  intro wf
  induction wf with
  | zero => intro n s; exact wo_refl ns s
  | succ wf ih =>
      intro n s
      cases n with
      | head _ => exact wo_refl ns s
      | node c =>
          rw [walkCtxList]
          refine wo_trans ?_ (ih _ _)
          split
          · exact wo_ctx_propagate cf c src ns s
          · exact wo_refl ns s

theorem wo_td_propagate (cf wf : Nat) (w : WorkerId) (src : CtxId) (ns : Nat)
    (s : MarketState) : WritesOnly ns s (td_propagate_task_group_state cf wf w src ns s) := by
  intro j
  rcases wo_walk cf w src ns wf (s.workers w).head_next s j with h | h
  · exact Or.inl h
  · exact Or.inr h

theorem wo_foldl_td (cf wf : Nat) (src : CtxId) (ns : Nat) :
    ∀ (W : List WorkerId) (s : MarketState),
      WritesOnly ns s
        (W.foldl (fun st u => td_propagate_task_group_state cf wf u src ns st) s) := by
  intro W
  induction W with
  | nil => intro s; exact wo_refl ns s
  | cons w W ih =>
      intro s
      exact wo_trans (wo_td_propagate cf wf w src ns s) (ih _)

theorem wo_market (W : List WorkerId) (cf wf : Nat) (src : CtxId) (ns : Nat)
    (s : MarketState) :
    WritesOnly ns s (market_propagate_task_group_state W cf wf src ns s).1 := by
  rw [market_propagate_task_group_state]
  split
  · exact wo_refl ns s
  · split
    · exact wo_refl ns s
    · exact wo_foldl_td cf wf src ns W _

/-! ### The marking chain: what `markChain` writes -/

theorem wo_flag_stays {ns : Nat} {s t : MarketState} (h : WritesOnly ns s t) {j : CtxId}
    (hj : (s.ctxs j).my_cancellation_requested = ns) :
    (t.ctxs j).my_cancellation_requested = ns := by
  rcases h j with h' | h'
  · exact h'
  · exact h'.trans hj

theorem src_notMem_chain (s : MarketState) (src : CtxId) :
    ∀ cf c, src ∉ chainCtxs s src cf c := by
  intro cf
  induction cf with
  | zero => intro c; simp [chainCtxs]
  | succ cf ih =>
      intro c
      rw [chainCtxs]
      by_cases hc : c = src
      · simp [hc]
      · simp only [if_neg hc]
        intro hmem
        rcases List.mem_cons.mp hmem with h | h
        · exact hc h.symm
        · cases hp : (s.ctxs c).my_parent with
          | none => rw [hp] at h; simp at h
          | some p => rw [hp] at h; exact ih p h

theorem reachesSrc_mono (s : MarketState) (src : CtxId) :
    ∀ cf c, reachesSrc s src cf c = true → reachesSrc s src (cf + 1) c = true := by
  intro cf
  induction cf with
  | zero => intro c h; simp [reachesSrc] at h
  | succ cf ih =>
      intro c h
      rw [reachesSrc] at h ⊢
      by_cases hc : c = src
      · simp [hc]
      · simp only [if_neg hc] at h ⊢
        cases hp : (s.ctxs c).my_parent with
        | none => rw [hp] at h; simp at h
        | some p => rw [hp] at h; exact ih p h

theorem chain_fuel_stable (s : MarketState) (src : CtxId) :
    ∀ cf c, reachesSrc s src cf c = true →
      chainCtxs s src (cf + 1) c = chainCtxs s src cf c := by
  intro cf
  induction cf with
  | zero => intro c h; simp [reachesSrc] at h
  | succ cf ih =>
      intro c h
      rw [reachesSrc] at h
      by_cases hc : c = src
      · rw [chainCtxs, chainCtxs]; simp [hc]
      · simp only [if_neg hc] at h
        cases hp : (s.ctxs c).my_parent with
        | none => rw [hp] at h; simp at h
        | some p =>
            rw [hp] at h
            rw [chainCtxs, chainCtxs]
            simp only [if_neg hc, hp]
            rw [ih p h]

theorem ancLoop_imp_reaches (s : MarketState) (src : CtxId) :
    ∀ cf a, ancestorSearchLoop s src cf (some a) = true → reachesSrc s src cf a = true := by
  intro cf
  induction cf with
  | zero => intro a h; simp [ancestorSearchLoop] at h
  | succ cf ih =>
      intro a h
      rw [ancestorSearchLoop] at h
      rw [reachesSrc]
      by_cases ha : a = src
      · simp [ha]
      · simp only [if_neg ha] at h ⊢
        cases hp : (s.ctxs a).my_parent with
        | none => rw [hp] at h; simp [ancestorSearchLoop] at h
        | some p => rw [hp] at h; exact ih p h

theorem reaches_imp_ancLoop (s : MarketState) (src : CtxId) :
    ∀ cf a, reachesSrc s src cf a = true → ancestorSearchLoop s src cf (some a) = true := by
  intro cf
  induction cf with
  | zero => intro a h; simp [reachesSrc] at h
  | succ cf ih =>
      intro a h
      rw [reachesSrc] at h
      rw [ancestorSearchLoop]
      by_cases ha : a = src
      · simp [ha]
      · simp only [if_neg ha] at h ⊢
        cases hp : (s.ctxs a).my_parent with
        | none => rw [hp] at h; simp at h
        | some p => rw [hp] at h; exact ih p h

theorem chain_complete (s : MarketState) (src : CtxId) :
    ∀ cf c, reachesSrc s src cf c = true →
      ∀ x ∈ chainCtxs s src cf c,
        reachesSrc s src cf x = true ∧
          ∀ y ∈ chainCtxs s src cf x, y ∈ chainCtxs s src cf c := by
  intro cf
  induction cf with
  | zero => intro c h; simp [reachesSrc] at h
  | succ cf ih =>
      intro c hreach x hx
      rw [reachesSrc] at hreach
      by_cases hc : c = src
      · rw [chainCtxs] at hx; simp [hc] at hx
      · simp only [if_neg hc] at hreach
        cases hp : (s.ctxs c).my_parent with
        | none => rw [hp] at hreach; simp at hreach
        | some p =>
            rw [hp] at hreach
            rw [chainCtxs] at hx
            simp only [if_neg hc, hp] at hx
            rcases List.mem_cons.mp hx with hxc | hxp
            · subst hxc
              constructor
              · rw [reachesSrc]
                simp only [if_neg hc, hp]
                exact hreach
              · intro y hy; exact hy
            · rcases ih p hreach x hxp with ⟨hrx, hsub⟩
              refine ⟨reachesSrc_mono s src cf x hrx, ?_⟩
              intro y hy
              rw [chain_fuel_stable s src cf x hrx] at hy
              rw [chainCtxs]
              simp only [if_neg hc, hp]
              exact List.mem_cons_of_mem c (hsub y hy)

theorem updFlag_flag_other (i : CtxId) (v : Nat) (s : MarketState) {j : CtxId} (h : j ≠ i) :
    ((updFlag i v s).ctxs j).my_cancellation_requested =
      (s.ctxs j).my_cancellation_requested := by
  rw [updFlag_ctxs]
  simp [h]

theorem markChain_sets (src : CtxId) (ns : Nat) :
    ∀ cf c s, ∀ x ∈ chainCtxs s src cf c,
      ((markChain src ns cf c s).ctxs x).my_cancellation_requested = ns := by
  intro cf
  induction cf with
  | zero => intro c s x hx; simp [chainCtxs] at hx
  | succ cf ih =>
      intro c s x hx
      rw [chainCtxs] at hx
      rw [markChain]
      by_cases hc : c = src
      · simp [hc] at hx
      · simp only [if_neg hc] at hx ⊢
        have hflagc : ((updFlag c ns s).ctxs c).my_cancellation_requested = ns := by
          rw [updFlag_ctxs]; simp
        have hpar : ((updFlag c ns s).ctxs c).my_parent = (s.ctxs c).my_parent :=
          feo_parent (feo_updFlag c ns s) c
        rcases List.mem_cons.mp hx with hxc | hxp
        · subst hxc
          cases hp : (s.ctxs x).my_parent with
          | none => rw [hpar, hp]; exact hflagc
          | some p =>
              rw [hpar, hp]
              exact wo_flag_stays (wo_markChain src ns cf p _) hflagc
        · cases hp : (s.ctxs c).my_parent with
          | none => rw [hp] at hxp; simp at hxp
          | some p =>
              rw [hp] at hxp
              rw [hpar, hp]
              have hchain :
                  chainCtxs (updFlag c ns s) src cf p = chainCtxs s src cf p :=
                chainCtxs_congr src (feo_parent (feo_updFlag c ns s)) cf p
              exact ih p (updFlag c ns s) x (by rw [hchain]; exact hxp)

theorem markChain_frame (src : CtxId) (ns : Nat) :
    ∀ cf c s x, x ∉ chainCtxs s src cf c →
      ((markChain src ns cf c s).ctxs x).my_cancellation_requested =
        (s.ctxs x).my_cancellation_requested := by
  intro cf
  induction cf with
  | zero => intro c s x _; rw [markChain]
  | succ cf ih =>
      intro c s x hx
      rw [chainCtxs] at hx
      rw [markChain]
      by_cases hc : c = src
      · simp [hc]
      · simp only [if_neg hc] at hx ⊢
        have hxc : x ≠ c := fun h => hx (by rw [h]; exact List.mem_cons_self _ _)
        have hpar : ((updFlag c ns s).ctxs c).my_parent = (s.ctxs c).my_parent :=
          feo_parent (feo_updFlag c ns s) c
        cases hp : (s.ctxs c).my_parent with
        | none =>
            rw [hpar, hp]
            exact updFlag_flag_other c ns s hxc
        | some p =>
            rw [hpar, hp]
            have hxp : x ∉ chainCtxs (updFlag c ns s) src cf p := by
              rw [chainCtxs_congr src (feo_parent (feo_updFlag c ns s)) cf p]
              intro hmem
              exact hx (by rw [hp]; exact List.mem_cons_of_mem c hmem)
            rw [ih p (updFlag c ns s) x hxp]
            exact updFlag_flag_other c ns s hxc

/-! ### The local propagation pass -/

theorem updWorker_ctxs (w : WorkerId) (f : ContextListState → ContextListState)
    (s : MarketState) : (updWorker w f s).ctxs = s.ctxs := rfl

theorem ancLoop_parent_imp_reaches (s : MarketState) (src : CtxId) (cf : Nat) (c : CtxId)
    (h : ancestorSearchLoop s src cf (s.ctxs c).my_parent = true) :
    reachesSrc s src (cf + 1) c = true := by
  rw [reachesSrc]
  by_cases hc : c = src
  · simp [hc]
  · simp only [if_neg hc]
    cases hp : (s.ctxs c).my_parent with
    | none => rw [hp] at h; simp [ancestorSearchLoop] at h
    | some a => rw [hp] at h; exact ancLoop_imp_reaches s src cf a h

theorem reaches_succ_imp_ancLoop_parent (s : MarketState) (src : CtxId) (cf : Nat)
    {x : CtxId} (hx : x ≠ src) (h : reachesSrc s src (cf + 1) x = true) :
    ancestorSearchLoop s src cf (s.ctxs x).my_parent = true := by
  rw [reachesSrc] at h
  simp only [if_neg hx] at h
  cases hp : (s.ctxs x).my_parent with
  | none => rw [hp] at h; simp at h
  | some p => rw [hp] at h; exact reaches_imp_ancLoop s src cf p h

theorem markChain_mem_of_changed (src : CtxId) (ns : Nat) (cf : Nat) (c : CtxId)
    (s : MarketState) {x : CtxId}
    (h : ((markChain src ns cf c s).ctxs x).my_cancellation_requested ≠
      (s.ctxs x).my_cancellation_requested) :
    x ∈ chainCtxs s src cf c := by
  by_contra hmem
  exact h (markChain_frame src ns cf c s x hmem)

theorem walk_frame (cf : Nat) (w : WorkerId) (src : CtxId) (ns : Nat) :
    ∀ wf n s x, ancestorSearchLoop s src cf (s.ctxs x).my_parent = false →
      ((walkCtxList cf w src ns wf n s).ctxs x).my_cancellation_requested =
        (s.ctxs x).my_cancellation_requested := by
  intro wf
  induction wf with
  | zero => intro n s x _; rw [walkCtxList]
  | succ wf ih =>
      intro n s x hx
      cases n with
      | head _ => rw [walkCtxList]
      | node c =>
          rw [walkCtxList]
          have hstep : ∀ s1 : MarketState, FlagEpochOnly s s1 →
              (s1.ctxs x).my_cancellation_requested = (s.ctxs x).my_cancellation_requested →
              ((walkCtxList cf w src ns wf ((s1.ctxs c).node_next.getD (.head w)) s1).ctxs
                  x).my_cancellation_requested =
                (s.ctxs x).my_cancellation_requested := by
            intro s1 hfeo hflag
            rw [ih _ s1 x ?_, hflag]
            rw [feo_parent hfeo x, ancLoop_congr src (feo_parent hfeo) cf]
            exact hx
          by_cases hc : (s.ctxs c).my_cancellation_requested ≠ ns
          · simp only [if_pos hc]
            refine hstep _ (feo_ctx_propagate cf c src ns s) ?_
            rw [ctx_propagate_task_group_state]
            by_cases hcond : (s.ctxs c).my_cancellation_requested ≠ ns ∧ c ≠ src
            · simp only [if_pos hcond]
              by_cases hanc : ancestorSearchLoop s src cf (s.ctxs c).my_parent = true
              · simp only [hanc, if_pos rfl]
                refine markChain_frame src ns (cf + 1) c s x ?_
                intro hmem
                have hreach : reachesSrc s src (cf + 1) c = true :=
                  ancLoop_parent_imp_reaches s src cf c hanc
                have hxsrc : x ≠ src := by
                  intro h; rw [h] at hmem; exact src_notMem_chain s src (cf + 1) c hmem
                have hrx := (chain_complete s src (cf + 1) c hreach x hmem).1
                rw [reaches_succ_imp_ancLoop_parent s src cf hxsrc hrx] at hx
                exact Bool.true_eq_false.mp hx
              · rw [Bool.not_eq_true] at hanc
                simp [hanc]
            · simp only [if_neg hcond]
          · simp only [if_neg hc]
            exact hstep s (feo_refl s) rfl

theorem walk_marks (cf : Nat) (w : WorkerId) (src : CtxId) (ns : Nat) :
    ∀ wf n s C, C ∈ walkOrder s w wf n →
      (s.ctxs C).my_cancellation_requested ≠ ns →
      ancestorSearchLoop s src cf (s.ctxs C).my_parent = true →
      ∀ x ∈ chainCtxs s src (cf + 1) C,
        ((walkCtxList cf w src ns wf n s).ctxs x).my_cancellation_requested = ns := by
  intro wf
  induction wf with
  | zero => intro n s C hC; simp [walkOrder] at hC
  | succ wf ih =>
      intro n s C hC hCflag hCanc x hx
      cases n with
      | head _ => simp [walkOrder] at hC
      | node c =>
          rw [walkOrder] at hC
          rw [walkCtxList]
          rcases List.mem_cons.mp hC with hCc | hCtail
          · -- C is the first node of the walk: its chain is marked now and
            -- the marks survive the rest of the walk.
            subst hCc
            simp only [if_pos hCflag]
            by_cases hCsrc : C = src
            · rw [chainCtxs] at hx; simp [hCsrc] at hx
            · have hprop :
                  ctx_propagate_task_group_state cf C src ns s =
                    markChain src ns (cf + 1) C s := by
                rw [ctx_propagate_task_group_state]
                simp only [if_pos (And.intro hCflag hCsrc), hCanc, if_true]
              rw [hprop]
              refine wo_flag_stays (wo_walk cf w src ns wf _ _) ?_
              exact markChain_sets src ns (cf + 1) C s x hx
          · -- C appears later in the walk.
            have hnext :
                ∀ s1 : MarketState, FlagEpochOnly s s1 →
                  (s1.ctxs c).node_next.getD (.head w) =
                    (s.ctxs c).node_next.getD (.head w) := by
              intro s1 hfeo; rw [feo_node_next hfeo]
            by_cases hc : (s.ctxs c).my_cancellation_requested ≠ ns
            · simp only [if_pos hc]
              set s1 := ctx_propagate_task_group_state cf c src ns s with hs1
              have hfeo : FlagEpochOnly s s1 := feo_ctx_propagate cf c src ns s
              by_cases hC1 : (s1.ctxs C).my_cancellation_requested ≠ ns
              · -- C is still unmarked after the first step: use the tail walk.
                have hC1mem : C ∈ walkOrder s1 w wf ((s1.ctxs c).node_next.getD (.head w)) := by
                  rw [walkOrder_congr w (feo_node_next hfeo), hnext s1 hfeo]
                  exact hCtail
                have := ih _ s1 C hC1mem hC1 ?_ x ?_
                · exact this
                · rw [feo_parent hfeo, ancLoop_congr src (feo_parent hfeo)]
                  exact hCanc
                · rw [chainCtxs_congr src (feo_parent hfeo)]
                  exact hx
              · -- C was marked while processing c: C lies on c's chain, and the
                -- whole chain below C is a subset of the chain just marked.
                rw [not_not] at hC1
                have hchanged : (s1.ctxs C).my_cancellation_requested ≠
                    (s.ctxs C).my_cancellation_requested := by
                  rw [hC1]; exact fun h => hCflag h.symm
                rw [ctx_propagate_task_group_state] at hs1
                by_cases hcond : (s.ctxs c).my_cancellation_requested ≠ ns ∧ c ≠ src
                · rw [if_pos hcond] at hs1
                  by_cases hanc : ancestorSearchLoop s src cf (s.ctxs c).my_parent = true
                  · rw [hanc, if_pos rfl] at hs1
                    have hmem : C ∈ chainCtxs s src (cf + 1) c := by
                      refine markChain_mem_of_changed src ns (cf + 1) c s ?_
                      rw [← hs1]; exact hchanged
                    have hreach : reachesSrc s src (cf + 1) c = true :=
                      ancLoop_parent_imp_reaches s src cf c hanc
                    have hsub := (chain_complete s src (cf + 1) c hreach C hmem).2
                    have hxin : x ∈ chainCtxs s src (cf + 1) c := hsub x hx
                    refine wo_flag_stays (wo_walk cf w src ns wf _ _) ?_
                    rw [hs1]
                    exact markChain_sets src ns (cf + 1) c s x hxin
                  · rw [Bool.not_eq_true] at hanc
                    rw [hanc] at hs1; simp only [Bool.false_eq_true, if_false] at hs1
                    rw [hs1] at hchanged; exact absurd rfl hchanged
                · rw [if_neg hcond] at hs1
                  rw [hs1] at hchanged; exact absurd rfl hchanged
            · simp only [if_neg hc]
              have hC1mem : C ∈ walkOrder s w wf ((s.ctxs c).node_next.getD (.head w)) :=
                hCtail
              exact ih _ s C hC1mem hCflag hCanc x hx

theorem src_flag_pres_markChain (src : CtxId) (ns : Nat) (cf : Nat) (c : CtxId)
    (s : MarketState) :
    ((markChain src ns cf c s).ctxs src).my_cancellation_requested =
      (s.ctxs src).my_cancellation_requested :=
  markChain_frame src ns cf c s src (src_notMem_chain s src cf c)

theorem src_flag_pres_walk (cf : Nat) (w : WorkerId) (src : CtxId) (ns : Nat) :
    ∀ wf n s, ((walkCtxList cf w src ns wf n s).ctxs src).my_cancellation_requested =
      (s.ctxs src).my_cancellation_requested := by
  intro wf
  induction wf with
  | zero => intro n s; rw [walkCtxList]
  | succ wf ih =>
      intro n s
      cases n with
      | head _ => rw [walkCtxList]
      | node c =>
          rw [walkCtxList]
          by_cases hc : (s.ctxs c).my_cancellation_requested ≠ ns
          · simp only [if_pos hc]
            rw [ih]
            rw [ctx_propagate_task_group_state]
            split
            · split
              · exact src_flag_pres_markChain src ns (cf + 1) c s
              · rfl
            · rfl
          · simp only [if_neg hc]
            exact ih _ s

theorem src_flag_pres_market (W : List WorkerId) (cf wf : Nat) (src : CtxId) (ns : Nat)
    (s : MarketState) :
    (((market_propagate_task_group_state W cf wf src ns s).1).ctxs
        src).my_cancellation_requested =
      (s.ctxs src).my_cancellation_requested := by
  rw [market_propagate_task_group_state]
  split
  · rfl
  · split
    · rfl
    · have main : ∀ (L : List WorkerId) (t : MarketState),
          (((L.foldl (fun st u => td_propagate_task_group_state cf wf u src ns st) t)).ctxs
              src).my_cancellation_requested =
            (t.ctxs src).my_cancellation_requested := by
        intro L
        induction L with
        | nil => intro t; rfl
        | cons u L ihL =>
            intro t
            rw [List.foldl_cons, ihL]
            rw [td_propagate_task_group_state]
            rw [updWorker_ctxs]
            exact src_flag_pres_walk cf u src ns wf _ t
      exact main W _

/-! ### Frame lemmas for binding and FP operations -/

theorem updCtx_ctxs_self (i : CtxId) (f : Context → Context) (s : MarketState) :
    (updCtx i f s).ctxs i = f (s.ctxs i) := by
  rw [updCtx_ctxs]; simp

theorem updCtx_ctxs_other (i : CtxId) (f : Context → Context) (s : MarketState) {j : CtxId}
    (h : j ≠ i) : (updCtx i f s).ctxs j = s.ctxs j := by
  rw [updCtx_ctxs]; simp [h]

theorem ancLoop_none (s : MarketState) (src : CtxId) (cf : Nat) :
    ancestorSearchLoop s src cf none = false := by
  cases cf <;> rfl

theorem bf_refl (s : MarketState) : BindFrame s s :=
  fun _ => ⟨rfl, Or.inl rfl, Or.inl rfl⟩

theorem bf_trans {s t u : MarketState} (h1 : BindFrame s t) (h2 : BindFrame t u) :
    BindFrame s u := by
  intro j
  obtain ⟨b1, f1, m1⟩ := h1 j
  obtain ⟨b2, f2, m2⟩ := h2 j
  refine ⟨b2.trans b1, ?_, ?_⟩
  · rcases f2 with h | h
    · rcases f1 with h' | h'
      · exact Or.inl (h.trans h')
      · exact Or.inr (h.trans h')
    · exact Or.inr h
  · rcases m2 with h | h
    · rcases m1 with h' | h'
      · exact Or.inl (h.trans h')
      · exact Or.inr (h.trans h')
    · exact Or.inr h

theorem bf_of_feo {s t : MarketState} (h : FlagEpochOnly s t) : BindFrame s t := by
  intro j
  refine ⟨?_, Or.inl ?_, Or.inl (feo_mhc h j)⟩
  · rw [feo_traits h j]
  · rw [feo_traits h j]

theorem bf_updCtx_keep (i : CtxId) (f : Context → Context) (s : MarketState)
    (hf : ∀ c, (f c).my_traits = c.my_traits ∧ (f c).may_have_children = c.may_have_children) :
    BindFrame s (updCtx i f s) := by
  intro j
  rw [updCtx_ctxs]
  by_cases h : j = i
  · rw [if_pos h]
    exact ⟨by rw [(hf _).1], Or.inl (by rw [(hf _).1]), Or.inl (hf _).2⟩
  · rw [if_neg h]
    exact ⟨rfl, Or.inl rfl, Or.inl rfl⟩

theorem bf_updWorker (w : WorkerId) (f : ContextListState → ContextListState)
    (s : MarketState) : BindFrame s (updWorker w f s) := by
  intro j
  exact ⟨rfl, Or.inl rfl, Or.inl rfl⟩

theorem bf_setPrevOf (n v : NodeRef) (s : MarketState) : BindFrame s (setPrevOf n v s) := by
  cases n with
  | head w =>
      exact bf_updWorker w (fun cls => { cls with head_prev := v }) s
  | node c =>
      exact bf_updCtx_keep c (fun ctx => { ctx with node_prev := some v }) s
        (fun _ => ⟨rfl, rfl⟩)

theorem bf_register (i : CtxId) (td : WorkerId) (s : MarketState) :
    BindFrame s (register_with i td s) := by
  simp only [register_with]
  refine bf_trans ?_ (bf_updWorker _ _ _)
  refine bf_trans ?_ (bf_updCtx_keep _ _ _ (fun _ => ⟨rfl, rfl⟩))
  refine bf_trans ?_ (bf_setPrevOf _ _ _)
  exact bf_updCtx_keep _ _ _ (fun _ => ⟨rfl, rfl⟩)

theorem bf_updFlag (i : CtxId) (v : Nat) (s : MarketState) : BindFrame s (updFlag i v s) :=
  bf_updCtx_keep i _ s (fun _ => ⟨rfl, rfl⟩)

theorem bf_copy_fp (i sc : CtxId) (s : MarketState) : BindFrame s (copy_fp_settings i sc s) := by
  intro j
  rw [copy_fp_settings, updCtx_ctxs]
  by_cases h : j = i
  · rw [if_pos h]
    exact ⟨rfl, Or.inr rfl, Or.inl rfl⟩
  · rw [if_neg h]
    exact ⟨rfl, Or.inl rfl, Or.inl rfl⟩

theorem bf_capture_fp (i : CtxId) (env : Nat) (s : MarketState) :
    BindFrame s (capture_fp_settings i env s) := by
  intro j
  rw [capture_fp_settings, updCtx_ctxs]
  by_cases h : j = i
  · rw [if_pos h]
    exact ⟨rfl, Or.inr rfl, Or.inl rfl⟩
  · rw [if_neg h]
    exact ⟨rfl, Or.inl rfl, Or.inl rfl⟩

theorem bf_mhcSet (p : CtxId) (s : MarketState) :
    BindFrame s (updCtx p (fun c => { c with may_have_children := 1 }) s) := by
  intro j
  rw [updCtx_ctxs]
  by_cases h : j = p
  · rw [if_pos h]
    exact ⟨rfl, Or.inl rfl, Or.inr rfl⟩
  · rw [if_neg h]
    exact ⟨rfl, Or.inl rfl, Or.inl rfl⟩

theorem bf_bindPre (i P : CtxId) (s : MarketState) : BindFrame s (bindPreState i P s) := by
  simp only [bindPreState]
  split
  · split
    · refine bf_trans ?_ (bf_mhcSet _ _)
      refine bf_trans ?_ (bf_copy_fp _ _ _)
      exact bf_updCtx_keep _ _ _ (fun _ => ⟨rfl, rfl⟩)
    · refine bf_trans ?_ (bf_copy_fp _ _ _)
      exact bf_updCtx_keep _ _ _ (fun _ => ⟨rfl, rfl⟩)
  · split
    · refine bf_trans ?_ (bf_mhcSet _ _)
      exact bf_updCtx_keep _ _ _ (fun _ => ⟨rfl, rfl⟩)
    · exact bf_updCtx_keep _ _ _ (fun _ => ⟨rfl, rfl⟩)

theorem bf_bindSpec (i : CtxId) (td : WorkerId) (P : CtxId) (s : MarketState) :
    BindFrame s (bindSpecState i td P s) := by
  rw [bindSpecState]
  refine bf_trans ?_ (bf_register _ _ _)
  refine bf_trans ?_ (bf_updFlag _ _ _)
  exact bf_bindPre i P s

theorem bf_bind_to_impl_id (i : CtxId) (td : WorkerId) (P : CtxId) (s : MarketState) :
    BindFrame s (bind_to_impl id i td P s) := by
  rw [bind_to_impl]
  simp only [id_eq]
  refine bf_trans ?_ (bf_updCtx_keep _ _ _ (fun _ => ⟨rfl, rfl⟩))
  split
  · split
    · refine bf_trans ?_ (bf_updFlag _ _ _)
      exact bf_bindSpec i td P s
    · exact bf_bindSpec i td P s
  · refine bf_trans ?_ (bf_updFlag _ _ _)
    refine bf_trans ?_ (bf_register _ _ _)
    exact bf_bindPre i P s

theorem bf_bind_to_id (i : CtxId) (td : WorkerId) (dC defC : CtxId) (s : MarketState) :
    BindFrame s (bind_to id i td dC defC s) := by
  simp only [bind_to]
  split
  · split
    · split
      · refine bf_trans ?_ (bf_updCtx_keep _ _ _ (fun _ => ⟨rfl, rfl⟩))
        refine bf_trans ?_ (bf_copy_fp _ _ _)
        exact bf_updCtx_keep _ _ _ (fun _ => ⟨rfl, rfl⟩)
      · refine bf_trans ?_ (bf_updCtx_keep _ _ _ (fun _ => ⟨rfl, rfl⟩))
        exact bf_updCtx_keep _ _ _ (fun _ => ⟨rfl, rfl⟩)
    · refine bf_trans ?_ (bf_bind_to_impl_id i td dC _)
      exact bf_updCtx_keep _ _ _ (fun _ => ⟨rfl, rfl⟩)
  · exact bf_refl s

theorem feo_cancel (W : List WorkerId) (cf wf : Nat) (i : CtxId) (s : MarketState) :
    FlagEpochOnly s (cancel_group_execution W cf wf i s).1 := by
  rw [cancel_group_execution]
  split
  · exact feo_refl s
  · exact feo_trans (feo_updFlag i 1 s) (feo_market W cf wf i 1 _)

theorem wo_cancel (W : List WorkerId) (cf wf : Nat) (i : CtxId) (s : MarketState) :
    WritesOnly 1 s (cancel_group_execution W cf wf i s).1 := by
  rw [cancel_group_execution]
  split
  · exact wo_refl 1 s
  · exact wo_trans (wo_updFlag 1 i s) (wo_market W cf wf i 1 _)

theorem cancel_already (W : List WorkerId) (cf wf : Nat) (i : CtxId) (t : MarketState)
    (ht : (t.ctxs i).my_cancellation_requested ≠ 0) :
    cancel_group_execution W cf wf i t = (t, false) := by
  rw [cancel_group_execution, if_pos ht]

theorem setPrevOf_flag (n v : NodeRef) (s : MarketState) (j : CtxId) :
    ((setPrevOf n v s).ctxs j).my_cancellation_requested =
      (s.ctxs j).my_cancellation_requested := by
  cases n with
  | head w => rfl
  | node c =>
      rw [setPrevOf, updCtx_ctxs]
      by_cases h : j = c <;> simp [h]

theorem updCtx_flag_keep (i : CtxId) (f : Context → Context) (s : MarketState) (j : CtxId)
    (hf : ∀ c, (f c).my_cancellation_requested = c.my_cancellation_requested) :
    ((updCtx i f s).ctxs j).my_cancellation_requested =
      (s.ctxs j).my_cancellation_requested := by
  rw [updCtx_ctxs]
  by_cases h : j = i
  · simp only [if_pos h]; exact hf _
  · simp only [if_neg h]

theorem register_flag (i : CtxId) (td : WorkerId) (s : MarketState) (j : CtxId) :
    ((register_with i td s).ctxs j).my_cancellation_requested =
      (s.ctxs j).my_cancellation_requested := by
  by_cases h : j = i <;>
    simp [register_with, updWorker_ctxs, setPrevOf_flag, updCtx_ctxs, h]

theorem bindSpec_child_flag (i : CtxId) (td : WorkerId) (P : CtxId) (s : MarketState) :
    ((bindSpecState i td P s).ctxs i).my_cancellation_requested =
      ((bindPreState i P s).ctxs P).my_cancellation_requested := by
  rw [bindSpecState, register_flag, updFlag_ctxs]
  simp

theorem td_frame (cf wf : Nat) (w : WorkerId) (src : CtxId) (ns : Nat) (s : MarketState)
    (i : CtxId) (hi : ancestorSearchLoop s src cf (s.ctxs i).my_parent = false) :
    ((td_propagate_task_group_state cf wf w src ns s).ctxs i).my_cancellation_requested =
      (s.ctxs i).my_cancellation_requested :=
  walk_frame cf w src ns wf _ s i hi

theorem foldl_td_frame (cf wf : Nat) (src : CtxId) (ns : Nat) :
    ∀ (W : List WorkerId) (s : MarketState) (i : CtxId),
      ancestorSearchLoop s src cf (s.ctxs i).my_parent = false →
      (((W.foldl (fun st u => td_propagate_task_group_state cf wf u src ns st) s)).ctxs
          i).my_cancellation_requested =
        (s.ctxs i).my_cancellation_requested := by
  intro W
  induction W with
  | nil => intro s i _; rfl
  | cons w W ih =>
      intro s i hi
      rw [List.foldl_cons]
      have hfeo := feo_td_propagate cf wf w src ns s
      rw [ih _ i ?_, td_frame cf wf w src ns s i hi]
      rw [feo_parent hfeo i, ancLoop_congr src (feo_parent hfeo) cf]
      exact hi

theorem market_frame (W : List WorkerId) (cf wf : Nat) (src : CtxId) (ns : Nat)
    (s : MarketState) (i : CtxId)
    (hi : ancestorSearchLoop s src cf (s.ctxs i).my_parent = false) :
    (((market_propagate_task_group_state W cf wf src ns s).1).ctxs
        i).my_cancellation_requested = (s.ctxs i).my_cancellation_requested := by
  rw [market_propagate_task_group_state]
  split
  · rfl
  · split
    · rfl
    · refine foldl_td_frame cf wf src ns W _ i ?_
      have hp : ∀ j,
          (({ s with the_context_state_propagation_epoch :=
              s.the_context_state_propagation_epoch + 1 } : MarketState).ctxs j).my_parent =
            (s.ctxs j).my_parent := fun _ => rfl
      rw [ancLoop_congr src hp cf]
      exact hi

/-! ### Frame lemmas for the isolated binding path -/

theorem iso_refl (s : MarketState) : IsoFrame s s := by
  exact ⟨rfl, fun _ => ⟨rfl, rfl, rfl, rfl⟩⟩

theorem iso_trans {s t u : MarketState} (h1 : IsoFrame s t) (h2 : IsoFrame t u) :
    IsoFrame s u := by
  refine ⟨h2.1.trans h1.1, fun j => ?_⟩
  obtain ⟨p1, n1, q1, f1⟩ := h1.2 j
  obtain ⟨p2, n2, q2, f2⟩ := h2.2 j
  exact ⟨p2.trans p1, n2.trans n1, q2.trans q1, f2.trans f1⟩

theorem iso_updCtx (i : CtxId) (f : Context → Context) (s : MarketState)
    (hf : ∀ c, (f c).my_parent = c.my_parent ∧ (f c).node_next = c.node_next ∧
      (f c).node_prev = c.node_prev ∧
      (f c).my_cancellation_requested = c.my_cancellation_requested) :
    IsoFrame s (updCtx i f s) := by
  refine ⟨rfl, fun j => ?_⟩
  rw [updCtx_ctxs]
  by_cases h : j = i
  · rw [if_pos h]
    exact hf _
  · rw [if_neg h]
    exact ⟨rfl, rfl, rfl, rfl⟩

theorem iso_copy_fp (i sc : CtxId) (s : MarketState) : IsoFrame s (copy_fp_settings i sc s) := by
  rw [copy_fp_settings]
  exact iso_updCtx i _ s (fun _ => ⟨rfl, rfl, rfl, rfl⟩)

/-! ### Claim theorems -/

/-- Claim C2: `cancel_group_execution(ctx)` returns `false` whenever the
cancellation flag is already 1 at the call, returns `true` exactly when the
call itself flips the flag from 0 to 1, leaves the flag at 1 after either
outcome, and two successive calls on the same context return `true` then
`false`. -/
theorem C2_cancel_idempotence (W : List WorkerId) (cf wf : Nat) (i : CtxId) (s : MarketState)
    (h01 : (s.ctxs i).my_cancellation_requested ≤ 1) :
    ((cancel_group_execution W cf wf i s).2 = true ↔
       (s.ctxs i).my_cancellation_requested = 0) ∧
    ((cancel_group_execution W cf wf i s).1.ctxs i).my_cancellation_requested = 1 ∧
    (cancel_group_execution W cf wf i (cancel_group_execution W cf wf i s).1).2 = false ∧
    ((cancel_group_execution W cf wf i
        (cancel_group_execution W cf wf i s).1).1.ctxs i).my_cancellation_requested = 1 := by
  by_cases h : (s.ctxs i).my_cancellation_requested = 0
  · have hcall : cancel_group_execution W cf wf i s =
        ((market_propagate_task_group_state W cf wf i 1 (updFlag i 1 s)).1, true) := by
      rw [cancel_group_execution, if_neg (fun hne => hne h)]
    have hflag1 :
        ((cancel_group_execution W cf wf i s).1.ctxs i).my_cancellation_requested = 1 := by
      rw [hcall]
      show ((market_propagate_task_group_state W cf wf i 1 (updFlag i 1 s)).1.ctxs
          i).my_cancellation_requested = 1
      rw [src_flag_pres_market, updFlag_ctxs]
      simp
    have hsec := cancel_already W cf wf i (cancel_group_execution W cf wf i s).1
      (by rw [hflag1]; exact one_ne_zero)
    refine ⟨?_, hflag1, ?_, ?_⟩
    · rw [hcall]; simp [h]
    · rw [hsec]
    · rw [hsec]; exact hflag1
  · have h1 : (s.ctxs i).my_cancellation_requested = 1 := by
      rcases Nat.le_one_iff_eq_zero_or_eq_one.mp h01 with h0 | h1
      · exact absurd h0 h
      · exact h1
    have hfirst := cancel_already W cf wf i s (by rw [h1]; exact one_ne_zero)
    have hstate : (cancel_group_execution W cf wf i s).1 = s := by rw [hfirst]
    refine ⟨?_, ?_, ?_, ?_⟩
    · rw [hfirst]; simp [h]
    · rw [hstate]; exact h1
    · rw [hstate, hfirst]
    · rw [hstate, hstate]; exact h1

/-- Claim C2, witness: on the all-blank state (flag 0) the hypotheses of
`C2_cancel_idempotence` hold at context 0 and the theorem applies. -/
theorem C2_cancel_idempotence_witness :
    (blankState.ctxs 0).my_cancellation_requested ≤ 1 ∧
    (((cancel_group_execution [] 0 0 0 blankState).2 = true ↔
       (blankState.ctxs 0).my_cancellation_requested = 0) ∧
    ((cancel_group_execution [] 0 0 0 blankState).1.ctxs 0).my_cancellation_requested = 1 ∧
    (cancel_group_execution [] 0 0 0 (cancel_group_execution [] 0 0 0 blankState).1).2 =
      false ∧
    ((cancel_group_execution [] 0 0 0
        (cancel_group_execution [] 0 0 0 blankState).1).1.ctxs
          0).my_cancellation_requested = 1) :=
  ⟨by decide, C2_cancel_idempotence [] 0 0 0 blankState (by decide)⟩

/-- Claim C10: the boolean returned by `cancel_group_execution` is
determined solely by the outcome of the atomic exchange on the context's
own flag — it is `true` exactly when the flag was 0 before the call — and
does not depend on the boolean returned by the market propagation, which
the source discards. -/
theorem C10_return_determined_by_exchange (W : List WorkerId) (cf wf : Nat) (i : CtxId)
    (s : MarketState) :
    (cancel_group_execution W cf wf i s).2 =
      decide ((s.ctxs i).my_cancellation_requested = 0) := by
  rw [cancel_group_execution]
  by_cases h : (s.ctxs i).my_cancellation_requested ≠ 0
  · rw [if_pos h]; simp [h]
  · rw [if_neg h]; rw [not_not] at h; simp [h]

/-- Claim C4 (code bug): `initialize` zeroes the flags, state, parent,
owner and exception, but stores `my_node.next` twice (source lines 96-97)
instead of also storing `my_node.prev`: on a context whose `prev` pointer
held `node 5`, `prev` still holds `node 5` after `initialize` while `next`
is null. -/
theorem C4_initialize_skips_prev :
    (ctxInit 0 dirtyCtx).my_cancellation_requested = 0 ∧
    (ctxInit 0 dirtyCtx).may_have_children = 0 ∧
    (ctxInit 0 dirtyCtx).my_lifetime_state = .created ∧
    (ctxInit 0 dirtyCtx).my_parent = none ∧
    (ctxInit 0 dirtyCtx).my_owner = none ∧
    (ctxInit 0 dirtyCtx).my_exception = none ∧
    (ctxInit 0 dirtyCtx).node_next = none ∧
    (ctxInit 0 dirtyCtx).node_prev = some (.node 5) := by
  decide

/-- Claim C5, counterexample: `capture_fp_settings` on a context without
captured FP settings mutates `my_traits` (it sets `fp_settings`), so the
traits are not immutable under every core operation. -/
theorem C5_capture_mutates_traits :
    ((capture_fp_settings 0 7 blankState).ctxs 0).my_traits ≠
      (blankState.ctxs 0).my_traits := by
  decide

/-- Claim C5, amended: `traits.bound` is immutable under every core
operation, and `traits.fp_settings` only ever transitions to `true` (it is
set by `capture_fp_settings`, and by `copy_fp_settings` during binding);
cancellation, propagation and reset leave the traits entirely unchanged. -/
theorem C5_traits_amended :
    (∀ i td dC defC s j,
       ((bind_to id i td dC defC s).ctxs j).my_traits.bound =
         (s.ctxs j).my_traits.bound ∧
       (((bind_to id i td dC defC s).ctxs j).my_traits.fp_settings =
           (s.ctxs j).my_traits.fp_settings ∨
         ((bind_to id i td dC defC s).ctxs j).my_traits.fp_settings = true)) ∧
    (∀ W cf wf i s j,
       (((cancel_group_execution W cf wf i s).1).ctxs j).my_traits =
         (s.ctxs j).my_traits) ∧
    (∀ W cf wf src ns s j,
       (((market_propagate_task_group_state W cf wf src ns s).1).ctxs j).my_traits =
         (s.ctxs j).my_traits) ∧
    (∀ i s j, ((resetM i s).ctxs j).my_traits = (s.ctxs j).my_traits) ∧
    (∀ i env s j,
       ((capture_fp_settings i env s).ctxs j).my_traits.bound =
         (s.ctxs j).my_traits.bound ∧
       (((capture_fp_settings i env s).ctxs j).my_traits.fp_settings =
           (s.ctxs j).my_traits.fp_settings ∨
         ((capture_fp_settings i env s).ctxs j).my_traits.fp_settings = true)) ∧
    (∀ i sc s j,
       ((copy_fp_settings i sc s).ctxs j).my_traits.bound = (s.ctxs j).my_traits.bound ∧
       (((copy_fp_settings i sc s).ctxs j).my_traits.fp_settings =
           (s.ctxs j).my_traits.fp_settings ∨
         ((copy_fp_settings i sc s).ctxs j).my_traits.fp_settings = true)) := by
  refine ⟨?_, ?_, ?_, ?_, ?_, ?_⟩
  · intro i td dC defC s j
    exact ⟨(bf_bind_to_id i td dC defC s j).1, (bf_bind_to_id i td dC defC s j).2.1⟩
  · intro W cf wf i s j
    exact feo_traits (feo_cancel W cf wf i s) j
  · intro W cf wf src ns s j
    exact feo_traits (feo_market W cf wf src ns s) j
  · intro i s j
    by_cases h : j = i
    · rw [resetM, updCtx_ctxs, if_pos h]; rfl
    · rw [resetM, updCtx_ctxs, if_neg h]
  · intro i env s j
    exact ⟨(bf_capture_fp i env s j).1, (bf_capture_fp i env s j).2.1⟩
  · intro i sc s j
    exact ⟨(bf_copy_fp i sc s j).1, (bf_copy_fp i sc s j).2.1⟩

/-- Claim C8: `reset` clears the cancellation flag and releases the stored
exception of its context and changes nothing else — the lifetime state,
parent, owner, list-node pointers, traits, FP environment and
`may_have_children` of every context, the other contexts entirely, every
worker's list state and the global epoch are all unchanged. -/
theorem C8_reset_frame (i : CtxId) (s : MarketState) :
    ((resetM i s).ctxs i).my_cancellation_requested = 0 ∧
    ((resetM i s).ctxs i).my_exception = none ∧
    (∀ j, ((resetM i s).ctxs j).my_lifetime_state = (s.ctxs j).my_lifetime_state ∧
       ((resetM i s).ctxs j).my_parent = (s.ctxs j).my_parent ∧
       ((resetM i s).ctxs j).my_owner = (s.ctxs j).my_owner ∧
       ((resetM i s).ctxs j).node_prev = (s.ctxs j).node_prev ∧
       ((resetM i s).ctxs j).node_next = (s.ctxs j).node_next ∧
       ((resetM i s).ctxs j).my_traits = (s.ctxs j).my_traits ∧
       ((resetM i s).ctxs j).my_cpu_ctl_env = (s.ctxs j).my_cpu_ctl_env ∧
       ((resetM i s).ctxs j).may_have_children = (s.ctxs j).may_have_children) ∧
    (∀ j, j ≠ i → (resetM i s).ctxs j = s.ctxs j) ∧
    (resetM i s).workers = s.workers ∧
    (resetM i s).the_context_state_propagation_epoch =
      s.the_context_state_propagation_epoch := by
  refine ⟨?_, ?_, ?_, ?_, rfl, rfl⟩
  · rw [resetM, updCtx_ctxs_self]; rfl
  · rw [resetM, updCtx_ctxs_self]; rfl
  · intro j
    by_cases h : j = i
    · rw [resetM, updCtx_ctxs, if_pos h]
      exact ⟨rfl, rfl, rfl, rfl, rfl, rfl, rfl, rfl⟩
    · rw [resetM, updCtx_ctxs, if_neg h]
      exact ⟨rfl, rfl, rfl, rfl, rfl, rfl, rfl, rfl⟩
  · intro j hj
    rw [resetM, updCtx_ctxs, if_neg hj]

/-- Claim C8, witness: applying `C8_reset_frame` at context 0 of a state
where context 0 is cancelled and holds an exception, the unrelated
context 1 is untouched. -/
theorem C8_reset_frame_witness :
    (resetM 0 cancelledState).ctxs 1 = cancelledState.ctxs 1 :=
  (C8_reset_frame 0 cancelledState).2.2.2.1 1 (by decide)

/-- Claim C9, counterexample: context 1 of `earlyCancelState` is cancelled
(flag 1) before its first binding; `bind_to` then overwrites its flag with
the uncancelled parent's value, leaving the flag at 0 — so the flag is not
monotonic under every operation except `reset`. -/
theorem C9_bind_lowers_flag :
    (earlyCancelState.ctxs 1).my_cancellation_requested = 1 ∧
    ((bind_to id 1 0 0 99 earlyCancelState).ctxs 1).my_cancellation_requested = 0 := by
  decide

/-- Claim C9, amended: `my_cancellation_requested` is monotonic (a write
of 1 or no change) under `cancel_group_execution` and under state
propagation; `reset` clears it and `bind_to` overwrites the bound child's
flag with its parent's current value, which can lower a flag set before
binding.  `may_have_children` is left unchanged by reset, capture, copy
and cancellation, and `bind_to` only ever writes 1 into it. -/
theorem C9_monotonicity_amended :
    (∀ W cf wf p s j,
       ((cancel_group_execution W cf wf p s).1.ctxs j).my_cancellation_requested = 1 ∨
       ((cancel_group_execution W cf wf p s).1.ctxs j).my_cancellation_requested =
         (s.ctxs j).my_cancellation_requested) ∧
    (∀ W cf wf src s j,
       ((market_propagate_task_group_state W cf wf src 1 s).1.ctxs
           j).my_cancellation_requested = 1 ∨
       ((market_propagate_task_group_state W cf wf src 1 s).1.ctxs
           j).my_cancellation_requested = (s.ctxs j).my_cancellation_requested) ∧
    (∀ i s j, ((resetM i s).ctxs j).may_have_children = (s.ctxs j).may_have_children) ∧
    (∀ i env s j,
       ((capture_fp_settings i env s).ctxs j).may_have_children =
         (s.ctxs j).may_have_children) ∧
    (∀ i sc s j,
       ((copy_fp_settings i sc s).ctxs j).may_have_children =
         (s.ctxs j).may_have_children) ∧
    (∀ W cf wf p s j,
       ((cancel_group_execution W cf wf p s).1.ctxs j).may_have_children =
         (s.ctxs j).may_have_children) ∧
    (∀ i td dC defC s j,
       ((bind_to id i td dC defC s).ctxs j).may_have_children =
         (s.ctxs j).may_have_children ∨
       ((bind_to id i td dC defC s).ctxs j).may_have_children = 1) := by
  refine ⟨?_, ?_, ?_, ?_, ?_, ?_, ?_⟩
  · intro W cf wf p s j
    exact wo_cancel W cf wf p s j
  · intro W cf wf src s j
    exact wo_market W cf wf src 1 s j
  · intro i s j
    by_cases h : j = i
    · rw [resetM, updCtx_ctxs, if_pos h]; rfl
    · rw [resetM, updCtx_ctxs, if_neg h]
  · intro i env s j
    by_cases h : j = i
    · rw [capture_fp_settings, updCtx_ctxs, if_pos h]
    · rw [capture_fp_settings, updCtx_ctxs, if_neg h]
  · intro i sc s j
    by_cases h : j = i
    · rw [copy_fp_settings, updCtx_ctxs, if_pos h]
    · rw [copy_fp_settings, updCtx_ctxs, if_neg h]
  · intro W cf wf p s j
    exact feo_mhc (feo_cancel W cf wf p s) j
  · intro i td dC defC s j
    exact (bf_bind_to_id i td dC defC s j).2.2

/-- Claim C3: during a local propagation pass over a worker's context list
with cancelled source `src`, every listed context `C` whose flag is not yet
set and of which `src` is a transitive ancestor gets the flag set to 1 on
every context of the parent chain from `C` up to but excluding `src`; and
every context of which `src` is not an ancestor (within the pass's search
depth) keeps its flag unchanged. -/
theorem C3_local_pass_marks (cf wf : Nat) (w : WorkerId) (src : CtxId) (s : MarketState)
    (hsrc : (s.ctxs src).my_cancellation_requested = 1) :
    (∀ C ∈ walkOrder s w wf (s.workers w).head_next,
       (s.ctxs C).my_cancellation_requested ≠ 1 →
       ancestorSearchLoop s src cf (s.ctxs C).my_parent = true →
       ∀ x ∈ chainCtxs s src (cf + 1) C,
         ((td_propagate_task_group_state cf wf w src 1 s).ctxs
             x).my_cancellation_requested = 1) ∧
    (∀ i, ancestorSearchLoop s src cf (s.ctxs i).my_parent = false →
       ((td_propagate_task_group_state cf wf w src 1 s).ctxs
           i).my_cancellation_requested = (s.ctxs i).my_cancellation_requested) := by
  constructor
  · intro C hC hCf hCa x hx
    exact walk_marks cf w src 1 wf _ s C hC hCf hCa x hx
  · intro i hi
    exact td_frame cf wf w src 1 s i hi

/-- Claim C3, witness: in `listState3` the source 0 is cancelled; the pass
over worker 0's list (which holds exactly context 1, a child of 0) marks
context 1 and leaves contexts with other ancestry untouched. -/
theorem C3_local_pass_marks_witness :
    (listState3.ctxs 0).my_cancellation_requested = 1 ∧
    ((∀ C ∈ walkOrder listState3 0 1 (listState3.workers 0).head_next,
       (listState3.ctxs C).my_cancellation_requested ≠ 1 →
       ancestorSearchLoop listState3 0 1 (listState3.ctxs C).my_parent = true →
       ∀ x ∈ chainCtxs listState3 0 2 C,
         ((td_propagate_task_group_state 1 1 0 0 1 listState3).ctxs
             x).my_cancellation_requested = 1) ∧
    (∀ i, ancestorSearchLoop listState3 0 1 (listState3.ctxs i).my_parent = false →
       ((td_propagate_task_group_state 1 1 0 0 1 listState3).ctxs
           i).my_cancellation_requested = (listState3.ctxs i).my_cancellation_requested)) :=
  ⟨by decide, C3_local_pass_marks 1 1 0 0 listState3 (by decide)⟩

/-- Claim C7: in `bind_to_impl`, for a parent that itself has a parent,
the global propagation epoch is compared after the list insertion against
the local epoch snapshot taken before the speculative flag copy; if they
are equal no further copy happens (the speculative copy, which the
inserted child carries, stands), and if they differ the parent's
`my_cancellation_requested` is copied into the child again under the
global propagation mutex.  `interf` is an arbitrary transformation of the
state in the race window between insertion and comparison. -/
theorem C7_epoch_validation (interf : MarketState → MarketState) (i : CtxId)
    (td : WorkerId) (P : CtxId) (s : MarketState)
    (hg : ((bindPreState i P s).ctxs P).my_parent ≠ none) :
    (bindSnapshot i P s =
        (interf (bindSpecState i td P s)).the_context_state_propagation_epoch →
      bind_to_impl interf i td P s =
        updCtx i (fun c => { c with my_lifetime_state := .bound })
          (interf (bindSpecState i td P s))) ∧
    (bindSnapshot i P s ≠
        (interf (bindSpecState i td P s)).the_context_state_propagation_epoch →
      bind_to_impl interf i td P s =
        updCtx i (fun c => { c with my_lifetime_state := .bound })
          (updFlag i
            ((interf (bindSpecState i td P s)).ctxs P).my_cancellation_requested
            (interf (bindSpecState i td P s)))) ∧
    ((bindSpecState i td P s).ctxs i).my_cancellation_requested =
      ((bindPreState i P s).ctxs P).my_cancellation_requested := by
  refine ⟨?_, ?_, bindSpec_child_flag i td P s⟩
  · intro heq
    rw [bind_to_impl, if_pos hg, if_neg (fun hne => hne heq)]
  · intro hne
    rw [bind_to_impl, if_pos hg, if_pos hne]

/-- Claim C7, witness: in `grandState` the parent (context 1) has a
grandparent (context 0), so `C7_epoch_validation` applies to binding
context 2 under it with no interference. -/
theorem C7_epoch_validation_witness :
    ((bindPreState 2 1 grandState).ctxs 1).my_parent ≠ none ∧
    ((bindSnapshot 2 1 grandState =
        (id (bindSpecState 2 0 1 grandState)).the_context_state_propagation_epoch →
      bind_to_impl id 2 0 1 grandState =
        updCtx 2 (fun c => { c with my_lifetime_state := .bound })
          (id (bindSpecState 2 0 1 grandState))) ∧
    (bindSnapshot 2 1 grandState ≠
        (id (bindSpecState 2 0 1 grandState)).the_context_state_propagation_epoch →
      bind_to_impl id 2 0 1 grandState =
        updCtx 2 (fun c => { c with my_lifetime_state := .bound })
          (updFlag 2
            ((id (bindSpecState 2 0 1 grandState)).ctxs 1).my_cancellation_requested
            (id (bindSpecState 2 0 1 grandState)))) ∧
    ((bindSpecState 2 0 1 grandState).ctxs 2).my_cancellation_requested =
      ((bindPreState 2 1 grandState).ctxs 1).my_cancellation_requested) :=
  ⟨by decide, C7_epoch_validation id 2 0 1 grandState (by decide)⟩

/-- Claim C6: `bind_to` applied to a context in state `created` whose
dispatcher context equals the arena default root, or whose `traits.bound`
is false, ends in state `isolated` (passing through the internal `locked`
store), leaves its parent link unchanged (hence null for an initialised
context), inserts it into no worker's list, copies the FP environment from
the default context when `traits.fp_settings` was not set, and a later
`cancel_group_execution` on any other context never marks it as long as
its parent link is null. -/
theorem C6_isolated_binding (interf : MarketState → MarketState) (i : CtxId)
    (td : WorkerId) (dC defC : CtxId) (s : MarketState)
    (hcr : (s.ctxs i).my_lifetime_state = .created)
    (hiso : dC = defC ∨ (s.ctxs i).my_traits.bound = false) :
    ((bind_to interf i td dC defC s).ctxs i).my_lifetime_state = .isolated ∧
    (∀ j, ((bind_to interf i td dC defC s).ctxs j).my_parent = (s.ctxs j).my_parent) ∧
    (bind_to interf i td dC defC s).workers = s.workers ∧
    (∀ j, ((bind_to interf i td dC defC s).ctxs j).node_next = (s.ctxs j).node_next ∧
       ((bind_to interf i td dC defC s).ctxs j).node_prev = (s.ctxs j).node_prev) ∧
    ((s.ctxs i).my_traits.fp_settings = false →
       ((bind_to interf i td dC defC s).ctxs i).my_cpu_ctl_env =
         (s.ctxs defC).my_cpu_ctl_env) ∧
    (∀ P W cf wf, (s.ctxs i).my_parent = none → i ≠ P →
       (((cancel_group_execution W cf wf P (bind_to interf i td dC defC s)).1).ctxs
           i).my_cancellation_requested =
         ((bind_to interf i td dC defC s).ctxs i).my_cancellation_requested) := by
  have htr : ((updCtx i (fun c => { c with my_lifetime_state := LifetimeState.locked })
      s).ctxs i).my_traits = (s.ctxs i).my_traits := by
    rw [updCtx_ctxs_self]
  have hiso1 : dC = defC ∨
      ((updCtx i (fun c => { c with my_lifetime_state := LifetimeState.locked })
        s).ctxs i).my_traits.bound = false := by
    rcases hiso with h | h
    · exact Or.inl h
    · right; rw [htr]; exact h
  have hbind : bind_to interf i td dC defC s =
      updCtx i (fun c => { c with my_lifetime_state := .isolated })
        (if ((updCtx i (fun c => { c with my_lifetime_state := LifetimeState.locked })
              s).ctxs i).my_traits.fp_settings = false
         then copy_fp_settings i defC
           (updCtx i (fun c => { c with my_lifetime_state := LifetimeState.locked }) s)
         else updCtx i (fun c => { c with my_lifetime_state := LifetimeState.locked }) s) := by
    simp only [bind_to]
    rw [if_pos hcr, if_pos hiso1]
  have hlock : IsoFrame s
      (updCtx i (fun c => { c with my_lifetime_state := LifetimeState.locked }) s) :=
    iso_updCtx i _ s (fun _ => ⟨rfl, rfl, rfl, rfl⟩)
  have hframe : IsoFrame s (bind_to interf i td dC defC s) := by
    rw [hbind]
    refine iso_trans ?_ (iso_updCtx i _ _ (fun _ => ⟨rfl, rfl, rfl, rfl⟩))
    split
    · exact iso_trans hlock (iso_copy_fp i defC _)
    · exact hlock
  refine ⟨?_, fun j => (hframe.2 j).1, hframe.1,
    fun j => ⟨(hframe.2 j).2.1, (hframe.2 j).2.2.1⟩, ?_, ?_⟩
  · rw [hbind, updCtx_ctxs_self]
  · intro hfp
    have hfp1 : ((updCtx i (fun c => { c with my_lifetime_state := LifetimeState.locked })
        s).ctxs i).my_traits.fp_settings = false := by
      rw [htr]; exact hfp
    rw [hbind, updCtx_ctxs_self]
    show ((if ((updCtx i (fun c => { c with my_lifetime_state := LifetimeState.locked })
            s).ctxs i).my_traits.fp_settings = false
        then copy_fp_settings i defC
          (updCtx i (fun c => { c with my_lifetime_state := LifetimeState.locked }) s)
        else updCtx i (fun c => { c with my_lifetime_state := LifetimeState.locked })
          s).ctxs i).my_cpu_ctl_env = (s.ctxs defC).my_cpu_ctl_env
    rw [if_pos hfp1, copy_fp_settings, updCtx_ctxs_self]
    show ((updCtx i (fun c => { c with my_lifetime_state := LifetimeState.locked })
        s).ctxs defC).my_cpu_ctl_env = (s.ctxs defC).my_cpu_ctl_env
    by_cases hd : defC = i
    · rw [hd, updCtx_ctxs_self]
    · rw [updCtx_ctxs_other i _ s hd]
  · intro P W cf wf hpar hiP
    have hpar2 : ((bind_to interf i td dC defC s).ctxs i).my_parent = none := by
      rw [(hframe.2 i).1]; exact hpar
    rw [cancel_group_execution]
    split
    · rfl
    · refine Eq.trans
        (market_frame W cf wf P 1
          (updFlag P 1 (bind_to interf i td dC defC s)) i ?_) ?_
      · have hp3 : ((updFlag P 1 (bind_to interf i td dC defC s)).ctxs i).my_parent =
            none := by
          rw [feo_parent (feo_updFlag P 1 _) i]; exact hpar2
        rw [hp3]
        exact ancLoop_none _ P cf
      · exact updFlag_flag_other P 1 _ hiP

/-- Claim C6, witness: binding context 1 of the blank state with the
dispatcher context equal to the default context (both 0) isolates it. -/
theorem C6_isolated_binding_witness :
    (blankState.ctxs 1).my_lifetime_state = .created ∧
    ((0 : CtxId) = 0 ∨ (blankState.ctxs 1).my_traits.bound = false) ∧
    ((bind_to id 1 0 0 0 blankState).ctxs 1).my_lifetime_state = .isolated :=
  ⟨by decide, Or.inl rfl,
    (C6_isolated_binding id 1 0 0 0 blankState (by decide) (Or.inl rfl)).1⟩
